import Mathlib

/-!
Shallow embedding of the heyps CLI core (src/main.rs): version resolution
(ScriptType, TargetVersion, AppAbbr, choose_app_path, App::new) and script
dispatch (escape_applescript_string, Script::execute and its helpers).
Filesystem paths are modelled as Lean String values holding the textual form
of the path.  External processes are modelled by the command the code would
spawn (PlannedCmd) together with an oracle (CmdOutput) describing the
completed process, since the code only inspects status/stdout/stderr of the
single command it runs.
-/

namespace Heyps

/-- Splitting a character list on a separator character; used to model
splitting a path on the / separator.  The result is always non-empty. -/
def splitOnChar (sep : Char) : List Char → List (List Char)
  | [] => [[]]
  | c :: cs =>
    match splitOnChar sep cs with
    | [] => if c = sep then [[], []] else [[c]]
    | h :: t => if c = sep then [] :: h :: t else (c :: h) :: t

/-- Rust Path::file_name on the textual form of a path: the last path
component after dropping empty and single-dot components; none when no
component remains or the last one is the parent-dir component. -/
def fileNameL (p : List Char) : Option (List Char) :=
  let comps := (splitOnChar '/' p).filter (fun c => !(c == []) && !(c == ['.']))
  match comps.getLast? with
  | none => none
  | some c => if c = ['.', '.'] then none else some c

/-- Splitting a file name at its last dot: some (before, after) when the name
contains a dot, none otherwise. -/
def splitLastDot : List Char → Option (List Char × List Char)
  | [] => none
  | c :: cs =>
    match splitLastDot cs with
    | some (b, a) => some (c :: b, a)
    | none => if c = '.' then some ([], cs) else none

/-- Rust Path::extension: the part of the file name after its last dot,
unless there is no dot or the part before the last dot is empty. -/
def extensionL (p : List Char) : Option (List Char) :=
  (fileNameL p).bind fun n =>
    match splitLastDot n with
    | some (b, a) => if b = [] then none else some a
    | none => none

/-- Rust Path::file_stem: the file name up to its last dot; the whole name
when there is no dot or the part before the last dot is empty. -/
def fileStemL (p : List Char) : Option (List Char) :=
  (fileNameL p).map fun n =>
    match splitLastDot n with
    | some (b, _) => if b = [] then n else b
    | none => n

/-- Rust str::contains with a literal pattern: some contiguous run of hay
equals pat. -/
def containsSub : List Char → List Char → Bool
  | [], pat => pat.isEmpty
  | c :: t, pat => pat.isPrefixOf (c :: t) || containsSub t pat

/-- Lexicographic order on character lists, modelling the total order that
Vec::sort uses over the discovered candidate paths in choose_app_path. -/
def charListLe : List Char → List Char → Bool
  | [], _ => true
  | _ :: _, [] => false
  | a :: as, b :: bs =>
    if a < b then true
    else if b < a then false
    else charListLe as bs

/-- Path order on the string form of paths. -/
def PathLe (p q : String) : Prop := charListLe p.data q.data = true

instance : DecidableRel PathLe := fun p q =>
  inferInstanceAs (Decidable (charListLe p.data q.data = true))

theorem charListLe_refl : ∀ l : List Char, charListLe l l = true := by
  intro l
  induction l with
  | nil => rfl
  | cons a as ih => simp [charListLe, lt_irrefl, ih]

theorem charListLe_total : ∀ x y : List Char,
    charListLe x y = true ∨ charListLe y x = true := by
  intro x
  induction x with
  | nil => intro y; left; rfl
  | cons a as ih =>
    intro y
    cases y with
    | nil => right; rfl
    | cons b bs =>
      rcases lt_trichotomy a b with hab | hab | hab
      · left; simp [charListLe, hab]
      · subst hab
        rcases ih bs with h | h
        · left; simp [charListLe, lt_irrefl, h]
        · right; simp [charListLe, lt_irrefl, h]
      · right; simp [charListLe, hab]

theorem charListLe_trans : ∀ x y z : List Char,
    charListLe x y = true → charListLe y z = true → charListLe x z = true := by
  intro x
  induction x with
  | nil => intro y z _ _; rfl
  | cons a as ih =>
    intro y z hxy hyz
    cases y with
    | nil => simp [charListLe] at hxy
    | cons b bs =>
      cases z with
      | nil => simp [charListLe] at hyz
      | cons c cs =>
        by_cases hab : a < b
        · by_cases hbc : b < c
          · simp [charListLe, lt_trans hab hbc]
          · by_cases hcb : c < b
            · simp [charListLe, hbc, hcb] at hyz
            · have hbc' : b = c := le_antisymm (not_lt.mp hcb) (not_lt.mp hbc)
              subst hbc'
              simp [charListLe, hab]
        · by_cases hba : b < a
          · simp [charListLe, hab, hba] at hxy
          · have hab' : a = b := le_antisymm (not_lt.mp hba) (not_lt.mp hab)
            subst hab'
            simp only [charListLe, lt_irrefl, if_false] at hxy
            by_cases hbc : a < c
            · simp [charListLe, hbc]
            · by_cases hcb : c < a
              · simp [charListLe, hbc, hcb] at hyz
              · have hac : a = c := le_antisymm (not_lt.mp hcb) (not_lt.mp hbc)
                subst hac
                simp only [charListLe, lt_irrefl, if_false] at hyz ⊢
                exact ih bs cs hxy hyz

theorem charListLe_antisymm : ∀ x y : List Char,
    charListLe x y = true → charListLe y x = true → x = y := by
  intro x
  induction x with
  | nil =>
    intro y _ hyx
    cases y with
    | nil => rfl
    | cons b bs => simp [charListLe] at hyx
  | cons a as ih =>
    intro y hxy hyx
    cases y with
    | nil => simp [charListLe] at hxy
    | cons b bs =>
      by_cases hab : a < b
      · simp [charListLe, hab] at hyx
        exact absurd hyx (lt_asymm hab)
      · by_cases hba : b < a
        · simp [charListLe, hab, hba] at hxy
        · have hab' : a = b := le_antisymm (not_lt.mp hba) (not_lt.mp hab)
          subst hab'
          simp only [charListLe, lt_irrefl, if_false] at hxy hyx
          exact congrArg (a :: ·) (ih bs hxy hyx)

theorem string_eq_of_data_eq {a b : String} (h : a.data = b.data) : a = b := by
  cases a; cases b; exact congrArg String.mk h

instance : IsTotal String PathLe := ⟨fun a b => charListLe_total a.data b.data⟩

instance : IsTrans String PathLe :=
  ⟨fun a b c => charListLe_trans a.data b.data c.data⟩

instance : IsRefl String PathLe := ⟨fun a => charListLe_refl a.data⟩

instance : IsAntisymm String PathLe :=
  ⟨fun a b h1 h2 => string_eq_of_data_eq (charListLe_antisymm a.data b.data h1 h2)⟩

/-- Deterministic sort of the candidate path list, modelling paths.sort() at
the top of choose_app_path. -/
def sortPaths (paths : List String) : List String :=
  List.insertionSort PathLe paths

/-- Script kinds derived from the file extension (ScriptType in main.rs). -/
inductive ScriptType where
  | Psjs
  | Jsx
  | Js
deriving DecidableEq

/-- Test used to model the matches! check on ScriptType::Js. -/
def ScriptType.isJs : ScriptType → Bool
  | .Js => true
  | _ => false

/-- ScriptType::from_path: the script kind from the lower-cased extension of
the file path; unsupported or missing extensions are hard errors. -/
def ScriptType.from_path (file_path : String) : Except String ScriptType :=
  match extensionL file_path.data with
  | none => .error "The script file does not have an extension"
  | some extL =>
    match (extL.map Char.toLower) with
    | ['p', 's', 'j', 's'] => .ok .Psjs
    | ['j', 's', 'x'] => .ok .Jsx
    | ['j', 's'] => .ok .Js
    | _ => .error "Unsupported file type (supported: .psjs, .jsx, .js)"

/-- Target version of the application (TargetVersion in main.rs). -/
inductive TargetVersion where
  | Latest
  | Beta
  | Year (y : Nat)
deriving DecidableEq

/-- UTF-8 byte size of one scalar value, modelling Rust str::len byte
counting. -/
def charUtf8Bytes (c : Char) : Nat :=
  if c.toNat < 0x80 then 1
  else if c.toNat < 0x800 then 2
  else if c.toNat < 0x10000 then 3
  else 4

/-- Rust str::len: the UTF-8 byte length of a string. -/
def strByteLen (s : String) : Nat :=
  (s.data.map charUtf8Bytes).sum

/-- Rust str::starts_with for a literal pattern. -/
def strStartsWith (s pre : String) : Bool :=
  pre.data.isPrefixOf s.data

/-- Rust u16::from_str: an optional leading plus sign, then one or more
ASCII digits, value at most 65535 (larger values overflow and fail). -/
def parse_u16 (s : String) : Option Nat :=
  let ds := match s.data with
            | c :: rest => if c = '+' then rest else c :: rest
            | [] => []
  if ds = [] then none
  else if ds.all Char.isDigit then
    let v := ds.foldl (fun acc c => acc * 10 + (c.toNat - '0'.toNat)) 0
    if v ≤ 65535 then some v else none
  else none

/-- parse_target: latest, beta, or a 4-byte string starting with 20 that
parses as a u16 year. -/
def parse_target (s : String) : Except String TargetVersion :=
  if s = "latest" then .ok .Latest
  else if s = "beta" then .ok .Beta
  else if strByteLen s = 4 ∧ strStartsWith s "20" then
    match parse_u16 s with
    | some y => .ok (.Year y)
    | none => .error ("Invalid year: " ++ s)
  else .error ("Invalid target: " ++ s ++ ". Use: latest, beta, or 20XX")

/-- Application abbreviation (AppAbbr in main.rs). -/
inductive AppAbbr where
  | Ps
  | Ai
  | Ae
deriving DecidableEq

/-- AppAbbr::from_str. -/
def AppAbbr.from_str (s : String) : Except String AppAbbr :=
  if s = "ps" then .ok .Ps
  else if s = "ai" then .ok .Ai
  else if s = "ae" then .ok .Ae
  else .error "Unsupported application. Use: ps|ai|ae"

/-- AppAbbr::base_display_name. -/
def AppAbbr.base_display_name : AppAbbr → String
  | .Ps => "Adobe Photoshop"
  | .Ai => "Adobe Illustrator"
  | .Ae => "Adobe After Effects"

/-- AppAbbr::bundle_id. -/
def AppAbbr.bundle_id : AppAbbr → String
  | .Ps => "com.adobe.Photoshop"
  | .Ai => "com.adobe.Illustrator"
  | .Ae => "com.adobe.AfterEffects"

/-- The is_beta closure in choose_app_path: the file name of the path
contains the pre-release marker. -/
def is_beta (p : String) : Bool :=
  match fileNameL p.data with
  | some n => containsSub n "(Beta)".data
  | none => false

/-- The year-matching closure in choose_app_path: the file name of the path
contains the decimal rendering of the year. -/
def year_match (y : Nat) (p : String) : Bool :=
  match fileNameL p.data with
  | some n => containsSub n (Nat.repr y).data
  | none => false

/-- choose_app_path: sort the candidates, then pick according to the target
selector (latest non-beta with fallback to overall last; last beta; or the
first path from the end whose name contains the year). -/
def choose_app_path (paths : List String) (target : TargetVersion) : Option String :=
  let sorted := sortPaths paths
  match target with
  | .Latest =>
    let latest_non_beta := (sorted.filter (fun p => !is_beta p)).getLast?
    latest_non_beta.orElse (fun _ => sorted.getLast?)
  | .Beta => (sorted.filter (fun p => is_beta p)).getLast?
  | .Year y => sorted.reverse.find? (fun p => year_match y p)

/-- Resolved application (App in main.rs). -/
structure App where
  abbr : AppAbbr
  bundle_id : String
  name : String
  path : String
  target : TargetVersion
deriving DecidableEq

/-- App::new, with the result of the mdfind discovery query supplied as the
candidates argument (mdfind itself is an external process; the code filters
its output to .app paths before reaching this logic). -/
def App.new (abbr : AppAbbr) (target : TargetVersion) (candidates : List String) :
    Except String App :=
  if candidates.isEmpty then
    .error (abbr.base_display_name ++ " not found (bundle id: " ++ abbr.bundle_id ++ ")")
  else
    match choose_app_path candidates target with
    | none => .error "Requested target version not found"
    | some chosen =>
      match fileStemL chosen.data with
      | none => .error "Failed to determine app name"
      | some nm => .ok ⟨abbr, abbr.bundle_id, ⟨nm⟩, chosen, target⟩

/-- Replace every occurrence of one character by a replacement run; one pass
of Rust str::replace with a single-character pattern. -/
def replaceChar (c : Char) (rep : List Char) : List Char → List Char
  | [] => []
  | x :: xs => (if x = c then rep else [x]) ++ replaceChar c rep xs

/-- escape_applescript_string: replace each backslash by two backslashes,
then each double quote by backslash-quote. -/
def escape_applescript_string (s : String) : String :=
  ⟨replaceChar '"' ['\\', '"'] (replaceChar '\\' ['\\', '\\'] s.data)⟩

/-- Inverse of the AppleScript escaping: drop the backslash in front of each
escaped character. -/
def unescapeL : List Char → List Char
  | [] => []
  | [c] => [c]
  | c :: c2 :: rest =>
    if c = '\\' then c2 :: unescapeL rest else c :: unescapeL (c2 :: rest)

/-- Script to dispatch (Script in main.rs). -/
structure Script where
  app : App
  file_path : String
  script_type : ScriptType
  verbose : Bool

/-- Observable outcome of the one external command a dispatch runs
(std::process::Output: status.success(), status.code(), stdout, stderr). -/
structure CmdOutput where
  success : Bool
  code : Option Int
  stdout : String
  stderr : String

/-- Script::run_cmd after the spawned command completed with the given
output: success yields unit, failure yields an error built only from the
exit code (stderr is merely echoed when verbose). -/
def Script.run_cmd (_s : Script) (out : CmdOutput) : Except String Unit :=
  if out.success then .ok ()
  else .error ("Command failed with status " ++ toString (out.code.getD (-1)))

/-- The command a dispatch would spawn. -/
inductive PlannedCmd where
  | osascript (cmdStr : String)
  | openApp (appPath scriptPath : String)
deriving DecidableEq

/-- The tell command built by Script::execute_with_osascript, including the
After Effects rejection of plain .js scripts. -/
def Script.osascript_tell_cmd (s : Script) : Except String String :=
  let escaped := escape_applescript_string s.file_path
  match s.app.abbr with
  | .Ps | .Ai =>
    .ok ("tell application \"" ++ s.app.name ++ "\" to do javascript of (POSIX file \""
      ++ escaped ++ "\")")
  | .Ae =>
    if s.script_type.isJs then
      .error "After Effects does not support plain .js; use .jsx"
    else
      .ok ("tell application \"" ++ s.app.name ++ "\" to DoScriptFile (POSIX file \""
        ++ escaped ++ "\")")

/-- The single external command Script::execute would spawn, or the error it
raises before spawning anything: the .psjs compatibility check, then either
the open invocation (execute_with_open) or the osascript invocation
(execute_with_osascript). -/
def Script.plan_command (s : Script) : Except String PlannedCmd :=
  match s.script_type with
  | .Psjs =>
    if s.app.abbr = .Ps then .ok (.openApp s.app.path s.file_path)
    else .error ".psjs is only supported by Adobe Photoshop"
  | .Jsx | .Js => (s.osascript_tell_cmd).map .osascript

/-- Script::execute with the external command's outcome supplied as an
oracle: compatibility errors fire before the command result is consulted;
otherwise the result is interpreted by run_cmd. -/
def Script.execute (s : Script) (out : CmdOutput) : Except String Unit :=
  match s.plan_command with
  | .error e => .error e
  | .ok _ => s.run_cmd out

/-- The spec's version-selector pattern: the character 2, the character 0,
then two decimal digits. -/
def matchesYearPattern (s : String) : Bool :=
  match s.data with
  | [a, b, c, d] => a == '2' && b == '0' && c.isDigit && d.isDigit
  | _ => false

/-! Helper lemmas about the path order, sorting, and list scanning. -/

theorem sortPaths_perm (paths : List String) : (sortPaths paths).Perm paths :=
  List.perm_insertionSort PathLe paths

theorem sortPaths_sorted (paths : List String) : (sortPaths paths).Pairwise PathLe :=
  List.sorted_insertionSort PathLe paths

theorem mem_sortPaths {x : String} {paths : List String} :
    x ∈ sortPaths paths ↔ x ∈ paths :=
  (sortPaths_perm paths).mem_iff

theorem sortPaths_eq_of_perm {paths paths' : List String} (h : paths.Perm paths') :
    sortPaths paths = sortPaths paths' :=
  List.eq_of_perm_of_sorted
    ((sortPaths_perm paths).trans (h.trans (sortPaths_perm paths').symm))
    (sortPaths_sorted paths) (sortPaths_sorted paths')

theorem sortPaths_ne_nil {paths : List String} (h : paths ≠ []) :
    sortPaths paths ≠ [] := by
  intro hc
  apply h
  have hl := (sortPaths_perm paths).length_eq
  rw [hc] at hl
  exact List.length_eq_zero.mp hl.symm

theorem pairwise_getLast?_le : ∀ {l : List String} {w : String},
    l.Pairwise PathLe → l.getLast? = some w → ∀ x ∈ l, PathLe x w := by
  intro l
  induction l with
  | nil => intro w _ hw; simp at hw
  | cons a t ih =>
    intro w hs hw x hx
    cases t with
    | nil =>
      have haw : a = w := by simpa using hw
      have hxa : x = a := by simpa using hx
      subst haw
      subst hxa
      exact charListLe_refl _
    | cons b t' =>
      rw [List.getLast?_cons_cons] at hw
      rcases List.mem_cons.mp hx with rfl | hx'
      · have hwmem : w ∈ b :: t' := List.mem_of_getLast?_eq_some hw
        exact (List.pairwise_cons.mp hs).1 w hwmem
      · exact ih (List.pairwise_cons.mp hs).2 hw x hx'

theorem pairwise_rev_find?_le {p : String → Bool} : ∀ {l : List String} {w : String},
    l.Pairwise (fun a b => PathLe b a) → l.find? p = some w →
    ∀ x ∈ l, p x = true → PathLe x w := by
  intro l
  induction l with
  | nil => intro w _ hw; simp at hw
  | cons a t ih =>
    intro w hps hw x hx hpx
    by_cases hpa : p a = true
    · rw [List.find?_cons_of_pos _ hpa] at hw
      have haw : a = w := by simpa using hw
      subst haw
      rcases List.mem_cons.mp hx with rfl | hx'
      · exact charListLe_refl _
      · exact (List.pairwise_cons.mp hps).1 x hx'
    · rw [List.find?_cons_of_neg _ hpa] at hw
      rcases List.mem_cons.mp hx with rfl | hx'
      · exact absurd hpx hpa
      · exact ih (List.pairwise_cons.mp hps).2 hw x hx' hpx

theorem filter_sorted (paths : List String) (q : String → Bool) :
    ((sortPaths paths).filter q).Pairwise PathLe :=
  List.Pairwise.sublist (List.filter_sublist _) (sortPaths_sorted paths)

/-! Helper lemmas about escaping. -/

theorem replaceChar_append (c : Char) (rep : List Char) :
    ∀ l₁ l₂ : List Char,
      replaceChar c rep (l₁ ++ l₂) = replaceChar c rep l₁ ++ replaceChar c rep l₂ := by
  intro l₁ l₂
  induction l₁ with
  | nil => rfl
  | cons x xs ih => simp [replaceChar, ih]

/-- Per-character form of the AppleScript escaping. -/
def escChar (c : Char) : List Char :=
  if c = '\\' then ['\\', '\\'] else if c = '"' then ['\\', '"'] else [c]

theorem escape_flatMap : ∀ l : List Char,
    replaceChar '"' ['\\', '"'] (replaceChar '\\' ['\\', '\\'] l) = l.flatMap escChar := by
  intro l
  induction l with
  | nil => rfl
  | cons c cs ih =>
    by_cases hb : c = '\\'
    · subst hb
      simp [replaceChar, escChar, ih]
    · by_cases hq : c = '"'
      · subst hq
        simp [replaceChar, escChar, ih]
      · simp [replaceChar, escChar, hb, hq, ih]

theorem escChar_ne_nil (c : Char) : escChar c ≠ [] := by
  unfold escChar
  by_cases hb : c = '\\' <;> by_cases hq : c = '"' <;> simp [hb, hq]

theorem flatMap_escChar_eq_nil {l : List Char} (h : l.flatMap escChar = []) : l = [] := by
  cases l with
  | nil => rfl
  | cons c cs =>
    rw [List.flatMap_cons] at h
    exact absurd (List.append_eq_nil.mp h).1 (escChar_ne_nil c)

theorem unescape_flatMap : ∀ l : List Char, unescapeL (l.flatMap escChar) = l := by
  intro l
  induction l with
  | nil => rfl
  | cons c cs ih =>
    rw [List.flatMap_cons]
    by_cases hb : c = '\\'
    · subst hb
      simp [escChar, unescapeL, ih]
    · by_cases hq : c = '"'
      · subst hq
        simp [escChar, unescapeL, ih]
      · simp only [escChar, if_neg hb, if_neg hq, List.singleton_append]
        cases he : cs.flatMap escChar with
        | nil =>
          rw [flatMap_escChar_eq_nil he]
          simp [unescapeL]
        | cons y ys =>
          rw [unescapeL, if_neg hb, ← he, ih]

/-! Claim theorems. -/

/-- C7: on the scripting-bridge dispatch path, escape_applescript_string
rewrites each backslash and each double quote of the script path to its
backslash-escaped form (leaving other characters alone), and unescaping
recovers the original path exactly, so the escaping is injective. -/
theorem escape_applescript_roundtrip (s : String) :
    (escape_applescript_string s).data = s.data.flatMap escChar ∧
    unescapeL (escape_applescript_string s).data = s.data ∧
    (∀ t : String, escape_applescript_string s = escape_applescript_string t → s = t) := by
  refine ⟨escape_flatMap s.data, ?_, ?_⟩
  · rw [show (escape_applescript_string s).data
        = replaceChar '"' ['\\', '"'] (replaceChar '\\' ['\\', '\\'] s.data) from rfl,
      escape_flatMap]
    exact unescape_flatMap s.data
  · intro t hst
    apply string_eq_of_data_eq
    have hs := escape_flatMap s.data
    have ht' := escape_flatMap t.data
    have hdata : (escape_applescript_string s).data = (escape_applescript_string t).data :=
      congrArg String.data hst
    rw [show (escape_applescript_string s).data
        = replaceChar '"' ['\\', '"'] (replaceChar '\\' ['\\', '\\'] s.data) from rfl,
      show (escape_applescript_string t).data
        = replaceChar '"' ['\\', '"'] (replaceChar '\\' ['\\', '\\'] t.data) from rfl,
      hs, ht'] at hdata
    have := congrArg unescapeL hdata
    rwa [unescape_flatMap, unescape_flatMap] at this

/-- C7 witness: the round trip and injectivity at a concrete path holding a
quote and a backslash. -/
theorem escape_applescript_roundtrip_witness :
    unescapeL (escape_applescript_string "/tmp/a\"b\\c.jsx").data = "/tmp/a\"b\\c.jsx".data
      ∧ ("a" : String) = "a" :=
  ⟨(escape_applescript_roundtrip "/tmp/a\"b\\c.jsx").2.1,
   (escape_applescript_roundtrip "a").2.2 "a" rfl⟩

/-- C8: choose_app_path returns the same winning path on any permutation of
the candidate list, for every selector, because of the explicit sort. -/
theorem choose_app_path_perm_invariant (paths paths' : List String)
    (target : TargetVersion) (hperm : paths.Perm paths') :
    choose_app_path paths target = choose_app_path paths' target := by
  simp only [choose_app_path, sortPaths_eq_of_perm hperm]

/-- C8 witness: a concrete list and a permutation of it resolve alike. -/
theorem choose_app_path_perm_invariant_witness :
    choose_app_path ["/Applications/Adobe Photoshop 2023.app",
        "/Applications/Adobe Photoshop (Beta).app"] TargetVersion.Latest
      = choose_app_path ["/Applications/Adobe Photoshop (Beta).app",
        "/Applications/Adobe Photoshop 2023.app"] TargetVersion.Latest :=
  choose_app_path_perm_invariant _ _ TargetVersion.Latest (by decide)

/-- C10: a winning path returned by choose_app_path is always one of the
supplied candidates. -/
theorem choose_app_path_mem (paths : List String) (target : TargetVersion)
    (w : String) (h : choose_app_path paths target = some w) : w ∈ paths := by
  rw [← mem_sortPaths]
  unfold choose_app_path at h
  cases target with
  | Latest =>
    simp only at h
    cases hfl : ((sortPaths paths).filter (fun p => !is_beta p)).getLast? with
    | some v =>
      rw [hfl] at h
      simp only [Option.orElse] at h
      cases h
      exact List.mem_of_mem_filter (List.mem_of_getLast?_eq_some hfl)
    | none =>
      rw [hfl] at h
      simp only [Option.orElse] at h
      exact List.mem_of_getLast?_eq_some h
  | Beta =>
    simp only at h
    exact List.mem_of_mem_filter (List.mem_of_getLast?_eq_some h)
  | Year y =>
    simp only at h
    exact List.mem_reverse.mp (List.mem_of_find?_eq_some h)

/-- C10 witness: the winner on a concrete candidate list is a member of it. -/
theorem choose_app_path_mem_witness :
    "/Applications/Adobe Photoshop 2023.app" ∈
      ["/Applications/Adobe Photoshop 2023.app",
       "/Applications/Adobe Photoshop (Beta).app"] :=
  choose_app_path_mem _ TargetVersion.Latest _ (by decide)

/-- C1: on a non-empty candidate list, the latest selector returns the
greatest-sorting candidate whose file name does not contain the (Beta)
marker; when every candidate carries the marker it returns the
greatest-sorting candidate overall instead of failing. -/
theorem choose_app_path_latest (paths : List String) (hne : paths ≠ []) :
    ∃ w, choose_app_path paths .Latest = some w ∧ w ∈ paths ∧
      ((∃ q ∈ paths, is_beta q = false) →
        is_beta w = false ∧ ∀ x ∈ paths, is_beta x = false → PathLe x w) ∧
      ((∀ q ∈ paths, is_beta q = true) → ∀ x ∈ paths, PathLe x w) := by
  by_cases hex : ∃ q ∈ paths, is_beta q = false
  · obtain ⟨q, hqmem, hqnb⟩ := hex
    have hqf : q ∈ (sortPaths paths).filter (fun p => !is_beta p) :=
      List.mem_filter.mpr ⟨mem_sortPaths.mpr hqmem, by simp [hqnb]⟩
    have hfne : (sortPaths paths).filter (fun p => !is_beta p) ≠ [] :=
      List.ne_nil_of_mem hqf
    obtain ⟨w, hw⟩ := Option.isSome_iff_exists.mp (List.getLast?_isSome.mpr hfne)
    refine ⟨w, ?_, ?_, ?_, ?_⟩
    · simp only [choose_app_path]
      rw [hw]
      rfl
    · exact mem_sortPaths.mp (List.mem_of_mem_filter (List.mem_of_getLast?_eq_some hw))
    · intro _
      constructor
      · have hnb := (List.mem_filter.mp (List.mem_of_getLast?_eq_some hw)).2
        simpa using hnb
      · intro x hx hxnb
        exact pairwise_getLast?_le (filter_sorted paths _) hw x
          (List.mem_filter.mpr ⟨mem_sortPaths.mpr hx, by simp [hxnb]⟩)
    · intro hall
      exact absurd (hall q hqmem) (by simp [hqnb])
  · push_neg at hex
    have hall : ∀ q ∈ paths, is_beta q = true := by
      intro q hq
      simpa using hex q hq
    have hfe : (sortPaths paths).filter (fun p => !is_beta p) = [] := by
      rw [List.filter_eq_nil_iff]
      intro a ha
      simp [hall a (mem_sortPaths.mp ha)]
    obtain ⟨w, hw⟩ := Option.isSome_iff_exists.mp
      (List.getLast?_isSome.mpr (sortPaths_ne_nil hne))
    refine ⟨w, ?_, mem_sortPaths.mp (List.mem_of_getLast?_eq_some hw), ?_, ?_⟩
    · simp only [choose_app_path, hfe]
      exact hw
    · intro hexq
      obtain ⟨q, hq, hqnb⟩ := hexq
      exact absurd (hall q hq) (by simp [hqnb])
    · intro _ x hx
      exact pairwise_getLast?_le (sortPaths_sorted paths) hw x (mem_sortPaths.mpr hx)

/-- C1 witness: the latest selector picks the 2023 build over the beta on a
concrete candidate list. -/
theorem choose_app_path_latest_witness :
    ∃ w, choose_app_path ["/Applications/Adobe Photoshop (Beta).app",
        "/Applications/Adobe Photoshop 2023.app",
        "/Applications/Adobe Photoshop 2022.app"] TargetVersion.Latest = some w ∧
      w ∈ ["/Applications/Adobe Photoshop (Beta).app",
        "/Applications/Adobe Photoshop 2023.app",
        "/Applications/Adobe Photoshop 2022.app"] ∧
      ((∃ q ∈ ["/Applications/Adobe Photoshop (Beta).app",
          "/Applications/Adobe Photoshop 2023.app",
          "/Applications/Adobe Photoshop 2022.app"], is_beta q = false) →
        is_beta w = false ∧ ∀ x ∈ ["/Applications/Adobe Photoshop (Beta).app",
          "/Applications/Adobe Photoshop 2023.app",
          "/Applications/Adobe Photoshop 2022.app"], is_beta x = false → PathLe x w) ∧
      ((∀ q ∈ ["/Applications/Adobe Photoshop (Beta).app",
          "/Applications/Adobe Photoshop 2023.app",
          "/Applications/Adobe Photoshop 2022.app"], is_beta q = true) →
        ∀ x ∈ ["/Applications/Adobe Photoshop (Beta).app",
          "/Applications/Adobe Photoshop 2023.app",
          "/Applications/Adobe Photoshop 2022.app"], PathLe x w) :=
  choose_app_path_latest _ (by decide)

/-- C4 counterexample: with a single non-beta candidate, the beta selector
fails with the generic requested-target message, which mentions no beta. -/
theorem beta_not_found_message_counterexample :
    App.new AppAbbr.Ps TargetVersion.Beta ["/Applications/Adobe Photoshop 2024.app"]
      = .error "Requested target version not found" ∧
    containsSub "Requested target version not found".data "beta".data = false ∧
    containsSub "Requested target version not found".data "Beta".data = false :=
  ⟨rfl, by decide, by decide⟩

/-- C4 (amended): the beta selector returns the greatest-sorting candidate
whose file name contains the (Beta) marker; with no marked candidate the
choice is empty and resolution fails with the generic message
"Requested target version not found". -/
theorem choose_app_path_beta (abbr : AppAbbr) (paths : List String) :
    (∀ w, choose_app_path paths .Beta = some w →
      w ∈ paths ∧ is_beta w = true ∧ ∀ x ∈ paths, is_beta x = true → PathLe x w) ∧
    ((∀ q ∈ paths, is_beta q = false) → choose_app_path paths .Beta = none) ∧
    (paths ≠ [] → choose_app_path paths .Beta = none →
      App.new abbr .Beta paths = .error "Requested target version not found") := by
  refine ⟨?_, ?_, ?_⟩
  · intro w hw
    simp only [choose_app_path] at hw
    refine ⟨mem_sortPaths.mp (List.mem_of_mem_filter (List.mem_of_getLast?_eq_some hw)),
      (List.mem_filter.mp (List.mem_of_getLast?_eq_some hw)).2, ?_⟩
    intro x hx hxb
    exact pairwise_getLast?_le (filter_sorted paths _) hw x
      (List.mem_filter.mpr ⟨mem_sortPaths.mpr hx, hxb⟩)
  · intro hall
    have hfe : (sortPaths paths).filter (fun p => is_beta p) = [] := by
      rw [List.filter_eq_nil_iff]
      intro a ha
      simp [hall a (mem_sortPaths.mp ha)]
    simp only [choose_app_path, hfe]
    rfl
  · intro hne hnone
    unfold App.new
    rw [if_neg (by simpa using hne), hnone]

/-- C4 witness: the failure at a concrete beta-free candidate list. -/
theorem choose_app_path_beta_witness :
    App.new AppAbbr.Ai TargetVersion.Beta ["/Applications/Adobe Illustrator 2024.app"]
      = .error "Requested target version not found" :=
  (choose_app_path_beta AppAbbr.Ai ["/Applications/Adobe Illustrator 2024.app"]).2.2
    (by decide) (by decide)

/-- C2 counterexample: when the requested year matches no candidate, the
error is the generic requested-target message and does not name the year. -/
theorem year_error_message_counterexample :
    App.new AppAbbr.Ps (TargetVersion.Year 2022)
        ["/Applications/Adobe Photoshop 2021.app"]
      = .error "Requested target version not found" ∧
    containsSub "Requested target version not found".data "2022".data = false :=
  ⟨rfl, by decide⟩

/-- C2 (amended): the year selector scans the sorted candidates from the end
and returns the first one whose file name contains the year, that is, the
greatest-sorting match even when it is not last overall; with no match the
choice is empty and resolution fails with the generic message
"Requested target version not found". -/
theorem choose_app_path_year (abbr : AppAbbr) (paths : List String) (y : Nat) :
    (∀ w, choose_app_path paths (.Year y) = some w →
      w ∈ paths ∧ year_match y w = true ∧
        ∀ x ∈ paths, year_match y x = true → PathLe x w) ∧
    ((∀ x ∈ paths, year_match y x = false) → choose_app_path paths (.Year y) = none) ∧
    (paths ≠ [] → choose_app_path paths (.Year y) = none →
      App.new abbr (.Year y) paths = .error "Requested target version not found") := by
  refine ⟨?_, ?_, ?_⟩
  · intro w hw
    simp only [choose_app_path] at hw
    have hrev : ((sortPaths paths).reverse).Pairwise (fun a b => PathLe b a) :=
      List.pairwise_reverse.mpr (sortPaths_sorted paths)
    refine ⟨mem_sortPaths.mp (List.mem_reverse.mp (List.mem_of_find?_eq_some hw)),
      List.find?_some hw, ?_⟩
    intro x hx hxm
    exact pairwise_rev_find?_le hrev hw x
      (List.mem_reverse.mpr (mem_sortPaths.mpr hx)) hxm
  · intro hall
    simp only [choose_app_path]
    rw [List.find?_eq_none]
    intro x hx
    simp [hall x (mem_sortPaths.mp (List.mem_reverse.mp hx))]
  · intro hne hnone
    unfold App.new
    rw [if_neg (by simpa using hne), hnone]

/-- C2 witness: year 2022 picks the 2022 build although 2023 sorts last. -/
theorem choose_app_path_year_witness :
    "/Applications/Adobe Photoshop 2022.app" ∈
      ["/Applications/Adobe Photoshop 2021.app",
       "/Applications/Adobe Photoshop 2022.app",
       "/Applications/Adobe Photoshop 2023.app"] ∧
    year_match 2022 "/Applications/Adobe Photoshop 2022.app" = true ∧
    ∀ x ∈ ["/Applications/Adobe Photoshop 2021.app",
       "/Applications/Adobe Photoshop 2022.app",
       "/Applications/Adobe Photoshop 2023.app"],
      year_match 2022 x = true → PathLe x "/Applications/Adobe Photoshop 2022.app" :=
  (choose_app_path_year AppAbbr.Ps
    ["/Applications/Adobe Photoshop 2021.app",
     "/Applications/Adobe Photoshop 2022.app",
     "/Applications/Adobe Photoshop 2023.app"] 2022).1
    "/Applications/Adobe Photoshop 2022.app" (by decide)

theorem containsSub_append_self : ∀ l pat : List Char, containsSub (l ++ pat) pat = true := by
  intro l pat
  induction l with
  | nil =>
    cases pat with
    | nil => rfl
    | cons c t =>
      show containsSub (c :: t) (c :: t) = true
      rw [containsSub]
      simp
  | cons x xs ih =>
    rw [List.cons_append, containsSub]
    simp [ih]

/-- C3 counterexample: a dispatch failing with exit code 2 and captured
stderr "permission denied" reports only the code; the stderr text is not in
the error. -/
theorem dispatch_error_stderr_counterexample :
    Script.execute
        ⟨⟨.Ps, "com.adobe.Photoshop", "Adobe Photoshop 2024",
          "/Applications/Adobe Photoshop 2024.app", .Latest⟩,
         "/tmp/a.jsx", .Jsx, false⟩
        ⟨false, some 2, "", "permission denied"⟩
      = .error "Command failed with status 2" ∧
    containsSub "Command failed with status 2".data "permission denied".data = false :=
  ⟨rfl, by decide⟩

/-- C3 (amended): whenever the planned external command completes with a
non-success status, the dispatch fails with an error carrying the exit code
in decimal (or the sentinel -1 when no code is available); an exit code of 2
yields an error containing the literal 2.  The captured stderr text is not
part of the error (it is only echoed in verbose mode). -/
theorem dispatch_nonzero_exit (s : Script) (out : CmdOutput) (c : PlannedCmd)
    (hplan : s.plan_command = .ok c) (hfail : out.success = false) :
    s.execute out
      = .error ("Command failed with status " ++ toString (out.code.getD (-1))) ∧
    containsSub ("Command failed with status " ++ toString (out.code.getD (-1))).data
      (toString (out.code.getD (-1))).data = true ∧
    (out.code = some 2 →
      containsSub ("Command failed with status " ++ toString (out.code.getD (-1))).data
        ['2'] = true) := by
  have hex : s.execute out
      = .error ("Command failed with status " ++ toString (out.code.getD (-1))) := by
    unfold Script.execute
    rw [hplan]
    unfold Script.run_cmd
    rw [if_neg (by simp [hfail])]
  refine ⟨hex, ?_, ?_⟩
  · rw [String.data_append]
    exact containsSub_append_self _ _
  · intro h2
    rw [h2]
    decide

/-- C3 witness: the failure shape at a concrete dispatch and exit code 2. -/
theorem dispatch_nonzero_exit_witness :
    Script.execute
        ⟨⟨.Ps, "com.adobe.Photoshop", "Adobe Photoshop 2024",
          "/Applications/Adobe Photoshop 2024.app", .Latest⟩,
         "/tmp/a.jsx", .Jsx, true⟩
        ⟨false, some 2, "", "boom"⟩
      = .error ("Command failed with status "
          ++ toString (((some 2 : Option Int)).getD (-1))) :=
  (dispatch_nonzero_exit
    ⟨⟨.Ps, "com.adobe.Photoshop", "Adobe Photoshop 2024",
      "/Applications/Adobe Photoshop 2024.app", .Latest⟩,
     "/tmp/a.jsx", .Jsx, true⟩
    ⟨false, some 2, "", "boom"⟩
    (.osascript
      "tell application \"Adobe Photoshop 2024\" to do javascript of (POSIX file \"/tmp/a.jsx\")")
    rfl rfl).1

/-- C5: dispatching a plain .js script to After Effects fails before any
command is planned or spawned, with an error naming the required .jsx
extension. -/
theorem ae_rejects_plain_js (s : Script) (out : CmdOutput)
    (habbr : s.app.abbr = .Ae) (htype : s.script_type = .Js) :
    s.plan_command = .error "After Effects does not support plain .js; use .jsx" ∧
    s.execute out = .error "After Effects does not support plain .js; use .jsx" ∧
    containsSub "After Effects does not support plain .js; use .jsx".data
      ".jsx".data = true := by
  have hplan : s.plan_command
      = .error "After Effects does not support plain .js; use .jsx" := by
    unfold Script.plan_command Script.osascript_tell_cmd
    rw [htype, habbr]
    simp [ScriptType.isJs, Except.map]
  refine ⟨hplan, ?_, by decide⟩
  unfold Script.execute
  rw [hplan]

/-- C5 witness: the rejection at a concrete After Effects script. -/
theorem ae_rejects_plain_js_witness :
    Script.execute
        ⟨⟨.Ae, "com.adobe.AfterEffects", "Adobe After Effects 2024",
          "/Applications/Adobe After Effects 2024.app", .Latest⟩,
         "/tmp/a.js", .Js, false⟩
        ⟨true, some 0, "", ""⟩
      = .error "After Effects does not support plain .js; use .jsx" :=
  (ae_rejects_plain_js
    ⟨⟨.Ae, "com.adobe.AfterEffects", "Adobe After Effects 2024",
      "/Applications/Adobe After Effects 2024.app", .Latest⟩,
     "/tmp/a.js", .Js, false⟩
    ⟨true, some 0, "", ""⟩ rfl rfl).2.1

/-- C6: dispatching a .psjs script to any application other than Photoshop
fails with the compatibility error before any command is planned or
spawned, whatever the external world would have answered. -/
theorem psjs_requires_photoshop (s : Script) (out : CmdOutput)
    (htype : s.script_type = .Psjs) (habbr : s.app.abbr ≠ .Ps) :
    s.plan_command = .error ".psjs is only supported by Adobe Photoshop" ∧
    s.execute out = .error ".psjs is only supported by Adobe Photoshop" := by
  have hplan : s.plan_command = .error ".psjs is only supported by Adobe Photoshop" := by
    unfold Script.plan_command
    rw [htype]
    simp [habbr]
  refine ⟨hplan, ?_⟩
  unfold Script.execute
  rw [hplan]

/-- C6 witness: the rejection at a concrete Illustrator .psjs dispatch. -/
theorem psjs_requires_photoshop_witness :
    Script.execute
        ⟨⟨.Ai, "com.adobe.Illustrator", "Adobe Illustrator 2024",
          "/Applications/Adobe Illustrator 2024.app", .Latest⟩,
         "/tmp/a.psjs", .Psjs, false⟩
        ⟨true, some 0, "", ""⟩
      = .error ".psjs is only supported by Adobe Photoshop" :=
  (psjs_requires_photoshop
    ⟨⟨.Ai, "com.adobe.Illustrator", "Adobe Illustrator 2024",
      "/Applications/Adobe Illustrator 2024.app", .Latest⟩,
     "/tmp/a.psjs", .Psjs, false⟩
    ⟨true, some 0, "", ""⟩ rfl (by decide)).2

theorem charUtf8Bytes_of_isDigit {c : Char} (h : c.isDigit = true) :
    charUtf8Bytes c = 1 := by
  simp only [Char.isDigit, Bool.and_eq_true, decide_eq_true_eq] at h
  have h4 : c.val.toBitVec.toNat ≤ (57 : UInt32).toBitVec.toNat := by
    have h2 := h.2
    rw [UInt32.le_def, BitVec.le_def] at h2
    exact h2
  have h5 : (57 : UInt32).toBitVec.toNat = 57 := rfl
  have h6 : c.toNat < 0x80 := by
    show c.val.toBitVec.toNat < 0x80
    omega
  simp [charUtf8Bytes, h6]

theorem sum_bytes_of_digits : ∀ l : List Char, (∀ c ∈ l, c.isDigit = true) →
    (l.map charUtf8Bytes).sum = l.length := by
  intro l
  induction l with
  | nil => intro _; rfl
  | cons c t ih =>
    intro h
    rw [List.map_cons, List.sum_cons,
      charUtf8Bytes_of_isDigit (h c (List.mem_cons_self c t)),
      ih (fun x hx => h x (List.mem_cons_of_mem c hx)), List.length_cons]
    omega

theorem startsWith20_shape {s : String} (h : strStartsWith s "20" = true) :
    ∃ t, s.data = '2' :: '0' :: t := by
  unfold strStartsWith at h
  rw [ List.isPrefixOf_iff_prefix] at h
  obtain ⟨t, ht⟩ := h
  refine ⟨t, ?_⟩
  have h20 : "20".data = ['2', '0'] := rfl
  rw [h20] at ht
  simpa using ht.symm

theorem parse_u16_guard_pattern {s : String} {y : Nat}
    (hlen : strByteLen s = 4) (hsw : strStartsWith s "20" = true)
    (hp : parse_u16 s = some y) : matchesYearPattern s = true := by
  obtain ⟨t, hdata⟩ := startsWith20_shape hsw
  unfold parse_u16 at hp
  rw [hdata] at hp
  simp at hp
  obtain ⟨hdig, -⟩ := hp
  have hsum : (t.map charUtf8Bytes).sum = 2 := by
    unfold strByteLen at hlen
    rw [hdata] at hlen
    simp only [List.map_cons, List.sum_cons] at hlen
    have hb2 : charUtf8Bytes '2' = 1 := rfl
    have hb0 : charUtf8Bytes '0' = 1 := rfl
    rw [hb2, hb0] at hlen
    omega
  have hlen2 : t.length = 2 := by
    rw [← sum_bytes_of_digits t hdig]
    exact hsum
  obtain ⟨c, d, hcd⟩ := List.length_eq_two.mp hlen2
  subst hcd
  unfold matchesYearPattern
  rw [hdata]
  simp [hdig c (by simp), hdig d (by simp)]

/-- C9 counterexample: the selector 20ab is none of the accepted forms and
does not match the 20-digit-digit pattern, yet parsing fails with
Invalid year: 20ab, which lists none of the three accepted forms. -/
theorem parse_target_message_counterexample :
    matchesYearPattern "20ab" = false ∧
    parse_target "20ab" = .error "Invalid year: 20ab" ∧
    containsSub "Invalid year: 20ab".data "latest".data = false ∧
    containsSub "Invalid year: 20ab".data "beta".data = false ∧
    containsSub "Invalid year: 20ab".data "20XX".data = false :=
  ⟨by decide, rfl, by decide, by decide, by decide⟩

/-- C9 (amended): every selector string other than latest and beta that does
not match the pattern 20 followed by two digits fails to parse; the message
lists the three accepted forms, except that a 4-byte string starting with 20
fails with the shorter message Invalid year. -/
theorem parse_target_invalid (s : String) (h1 : s ≠ "latest") (h2 : s ≠ "beta")
    (h3 : matchesYearPattern s = false) :
    parse_target s
      = .error (if strByteLen s = 4 ∧ strStartsWith s "20" = true
          then "Invalid year: " ++ s
          else "Invalid target: " ++ s ++ ". Use: latest, beta, or 20XX") := by
  unfold parse_target
  rw [if_neg h1, if_neg h2]
  by_cases hg : strByteLen s = 4 ∧ strStartsWith s "20" = true
  · rw [if_pos hg, if_pos hg]
    cases hp : parse_u16 s with
    | none => rfl
    | some y =>
      exact absurd (parse_u16_guard_pattern hg.1 hg.2 hp) (by simp [h3])
  · rw [if_neg hg, if_neg hg]

/-- C9 witness: the form-listing failure at a concrete invalid selector. -/
theorem parse_target_invalid_witness :
    parse_target "xyz"
      = .error (if strByteLen "xyz" = 4 ∧ strStartsWith "xyz" "20" = true
          then "Invalid year: " ++ "xyz"
          else "Invalid target: " ++ "xyz" ++ ". Use: latest, beta, or 20XX") :=
  parse_target_invalid "xyz" (by decide) (by decide) (by decide)

end Heyps
